import Mathlib

set_option maxRecDepth 8000

/-! Shallow embedding of the Orlando DOCX plugin conversion logic.

Sources embedded below:
  src/docx_plugin/utils/style_analyzer.py      (build_style_heading_map, _infer_heading_level)
  src/docx_plugin/services/docx_conversion_logic.py  (override merge, single-topic fallback)
  src/docx_plugin/services/filter_provider.py  (DocxFilterProvider.build_exclusion_map)

Strings are modelled as lists of characters.  The character classes model
the ASCII behaviour of the Python regex classes d, s, w and of str.lower
and str.strip, which is what the analysed style names exercise. -/

/-- ASCII decimal digit: the regex class d restricted to ASCII (codes 48-57). -/
def isDigitCh (c : Char) : Bool := 48 ≤ c.toNat && c.toNat ≤ 57

/-- ASCII whitespace: the regex class s restricted to ASCII
(space, tab, newline, carriage return, vertical tab, form feed). -/
def isPySpace (c : Char) : Bool :=
  c.toNat == 32 || c.toNat == 9 || c.toNat == 10 || c.toNat == 13 ||
  c.toNat == 11 || c.toNat == 12

/-- ASCII word character: the regex class w restricted to ASCII
(letters, digits, underscore); used for the word boundary b. -/
def isWordCh (c : Char) : Bool :=
  (65 ≤ c.toNat && c.toNat ≤ 90) || (97 ≤ c.toNat && c.toNat ≤ 122) ||
  (48 ≤ c.toNat && c.toNat ≤ 57) || c.toNat == 95

/-- The separator class [.-] of the numeric-leading style pattern. -/
def isSepCh (c : Char) : Bool := c == '.' || c == '-'

/-- ASCII model of str.lower on one character. -/
def lowerCh (c : Char) : Char :=
  match c with
  | 'A' => 'a' | 'B' => 'b' | 'C' => 'c' | 'D' => 'd' | 'E' => 'e'
  | 'F' => 'f' | 'G' => 'g' | 'H' => 'h' | 'I' => 'i' | 'J' => 'j'
  | 'K' => 'k' | 'L' => 'l' | 'M' => 'm' | 'N' => 'n' | 'O' => 'o'
  | 'P' => 'p' | 'Q' => 'q' | 'R' => 'r' | 'S' => 's' | 'T' => 't'
  | 'U' => 'u' | 'V' => 'v' | 'W' => 'w' | 'X' => 'x' | 'Y' => 'y'
  | 'Z' => 'z'
  | c => c

/-- str.lower over a whole string. -/
def pyLower (s : List Char) : List Char := s.map lowerCh

/-- str.strip: remove leading and trailing whitespace. -/
def pyStrip (s : List Char) : List Char :=
  (((s.dropWhile isPySpace).reverse.dropWhile isPySpace)).reverse

/-- Does the second list start with the first one (needle first)? -/
def listStartsWith : List Char → List Char → Bool
  | [], _ => true
  | _ :: _, [] => false
  | a :: as, b :: bs => a == b && listStartsWith as bs

/-- Python substring test (needle in haystack): contiguous sublist. -/
def containsSub : List Char → List Char → Bool
  | w, [] => listStartsWith w []
  | w, c :: t => listStartsWith w (c :: t) || containsSub w t

/-- Is any word of the vocabulary a substring of the haystack?
Models: any(pattern in style_lower for pattern in words). -/
def anySub (ws : List (List Char)) (h : List Char) : Bool :=
  ws.any (fun w => containsSub w h)

/-- Decimal value of a digit string (int() on a run of ASCII digits). -/
def natOfDigits (ds : List Char) : Nat :=
  ds.foldl (fun a c => 10 * a + (c.toNat - 48)) 0

/-- re.search of a digit group: value of the first maximal digit run, if any. -/
def firstNumber : List Char → Option Nat
  | [] => none
  | c :: cs =>
    if isDigitCh c then some (natOfDigits (c :: cs.takeWhile isDigitCh))
    else firstNumber cs

/-- Drop an exact expected character-list from the front of a string. -/
def dropStart : List Char → List Char → Option (List Char)
  | [], l => some l
  | _ :: _, [] => none
  | p :: ps, c :: cs => if c = p then dropStart ps cs else none

/-- The literal word the built-in heading pattern starts with. -/
def hdgChars : List Char := ['h', 'e', 'a', 'd', 'i', 'n', 'g']

/-- Core of the built-in heading pattern match, applied to the lowered name.
Models re.match on a lowered string; the dollar anchor accepts the end of
the string or a single trailing newline, as in Python. -/
def bhlTail : Option (List Char) → Option Nat
  | none => none
  | some rest =>
    if (rest.takeWhile isPySpace).isEmpty then none
    else if ((rest.dropWhile isPySpace).takeWhile isDigitCh).isEmpty then none
    else if (rest.dropWhile isPySpace).dropWhile isDigitCh = [] ∨
        (rest.dropWhile isPySpace).dropWhile isDigitCh = ['\n'] then
      some (natOfDigits ((rest.dropWhile isPySpace).takeWhile isDigitCh))
    else none

/-- Assembled built-in heading pattern matcher on an already-lowered name. -/
def bhlAux (l : List Char) : Option Nat := bhlTail (dropStart hdgChars l)

/-- Rule 1 matcher of build_style_heading_map: the IGNORECASE regex
Heading-space-digits anchored at both ends, returning the parsed number.
The IGNORECASE flag is modelled by lowering the name first (ASCII). -/
def builtinHeadingLevel (s : List Char) : Option Nat := bhlAux (pyLower s)

/-- Word boundary b of the numeric-leading pattern at the current rest of
the input: holds at the end of the string or before a non-word character. -/
def boundaryB : List Char → Bool
  | [] => true
  | c :: _ => !isWordCh c

/-- Greedy matcher for the tail groups of the numeric-leading pattern:
up to budget further groups of separator-plus-digits, preferring the
longest extension, falling back to a boundary at the current position
(the backtracking behaviour of the regex engine). Returns the number of
extra groups consumed by the successful match, if any. -/
def segsGo (budget : Nat) (rest : List Char) : Option Nat :=
  match budget with
  | 0 => if boundaryB rest then some 0 else none
  | b + 1 =>
    match rest with
    | [] => some 0
    | c :: cs =>
      if isSepCh c then
        let ds := cs.takeWhile isDigitCh
        if ds.isEmpty then (if boundaryB (c :: cs) then some 0 else none)
        else
          match segsGo b (cs.dropWhile isDigitCh) with
          | some n => some (n + 1)
          | none => if boundaryB (c :: cs) then some 0 else none
      else (if boundaryB (c :: cs) then some 0 else none)

/-- Rule 2 matcher of build_style_heading_map: the numeric-leading pattern
(optional whitespace, a digit run, then up to eight separator-digit groups,
then a word boundary).  Returns the count of numeric segments of the match
(the count of digit runs split on the separators), if the pattern matches. -/
def numericLeadingSegs (s : List Char) : Option Nat :=
  let t := s.dropWhile isPySpace
  let d0 := t.takeWhile isDigitCh
  if d0.isEmpty then none
  else
    match segsGo 8 (t.dropWhile isDigitCh) with
    | some extra => some (extra + 1)
    | none => none

/-- Built-in Word styles that should never be headings (style_analyzer.py,
the builtin_non_heading_styles set). -/
def builtin_non_heading_styles : List (List Char) :=
  (["Normal", "No Spacing", "Quote", "Intense Quote", "Subtle Emphasis",
    "Intense Emphasis", "Strong", "Subtle Reference", "Intense Reference",
    "Book Title", "List Paragraph", "Body Text", "Body Text 2", "Body Text 3",
    "Body Text Indent", "Body Text First Indent", "Body Text First Indent 2",
    "List", "List 2", "List 3", "List Bullet", "List Bullet 2", "List Bullet 3",
    "List Continue", "List Continue 2", "List Continue 3", "List Number",
    "List Number 2", "List Number 3", "Caption", "Figure Caption", "Table Caption",
    "Image Caption", "Footnote Text", "Footnote Reference", "Endnote Text",
    "Endnote Reference", "Bibliography", "Index 1", "Index 2", "Index 3",
    "Index 4", "Index 5", "Index 6", "Index 7", "Index 8", "Index 9",
    "TOC 1", "TOC 2", "TOC 3", "TOC 4", "TOC 5", "TOC 6", "TOC 7", "TOC 8",
    "TOC 9", "TOC Heading", "Table of Contents", "Header", "Footer", "Page Number",
    "Compact", "Plain Text", "HTML Preformatted", "Document Map", "Hyperlink",
    "FollowedHyperlink", "Macro Text", "Block Text", "Date", "Salutation",
    "Signature", "Closing", "Sans Interligne", "Texte Normal", "Citation",
    "Legende"] : List String).map String.toList

/-- Rule 4 vocabulary: strong exclusion substrings. -/
def strong_exclusions : List (List Char) :=
  (["caption", "footnote", "endnote", "toc", "bibliography",
    "format", "case", "overview", "break", "divider", "separator"] :
    List String).map String.toList

/-- Rule 5 vocabulary: medium exclusion substrings. -/
def medium_exclusions : List (List Char) :=
  (["quote", "emphasis", "strong", "list", "continue", "text"] :
    List String).map String.toList

/-- Rule 6 vocabulary: international heading substrings. -/
def international_patterns : List (List Char) :=
  (["titre", "titulo", "uberschrift", "haupt", "sous-titre",
    "chapitre", "partie", "sous-chapitre", "sous chapitre", "sous-section",
    "sous section"] : List String).map String.toList

/-- Rule 8 vocabulary: organizational heading substrings. -/
def org_patterns : List (List Char) :=
  (["department head", "section header", "chapter title", "part title"] :
    List String).map String.toList

/-- Rule 9 vocabulary: generic title and header substrings. -/
def title_header_patterns : List (List Char) :=
  (["title", "header"] : List String).map String.toList

/-- Tier-1 semantic keywords of _infer_heading_level. -/
def tier1_words : List (List Char) :=
  (["title", "main", "principal", "primary"] : List String).map String.toList

/-- Tier-2 semantic keywords of _infer_heading_level. -/
def tier2_words : List (List Char) :=
  (["section", "chapter", "part"] : List String).map String.toList

/-- Tier-3 semantic keywords of _infer_heading_level. -/
def tier3_words : List (List Char) :=
  (["subsection", "subchapter"] : List String).map String.toList

/-- The substring heading of rule 7 uses hdgChars; these are the two other
words consulted by rule 7. -/
def styleWordChars : List Char := "style".toList

/-- The word text consulted by rule 7. -/
def textWordChars : List Char := "text".toList

/-- The semantic keyword tiers of _infer_heading_level, applied to the
lowered (unstripped) style name. -/
def semanticLevel (lower : List Char) : Nat :=
  if anySub tier1_words lower then 1
  else if anySub tier2_words lower then 2
  else if anySub tier3_words lower then 3
  else 2

/-- The embedded-number branch of _infer_heading_level. -/
def inferFromNumber : Option Nat → List Char → Nat
  | some v, lower => if 1 ≤ v ∧ v ≤ 9 then v else semanticLevel lower
  | none, lower => semanticLevel lower

/-- _infer_heading_level (style_analyzer.py lines 221-243): first an embedded
number in [1,9], else semantic keyword tiers on the lowered (unstripped)
name, else the default level 2. -/
def _infer_heading_level (name : List Char) : Nat :=
  inferFromNumber (firstNumber name) (pyLower name)

/-- One paragraph style of the document style catalog, as seen by
build_style_heading_map.  The two Boolean flags model exceptions raised by
the underlying library: raises models an error thrown while inspecting the
style inside the loop body (caught by the outer try, which ends the loop),
outlineRaises models an error inside the rule 10 outline-level lookup
(caught by the inner try, which only skips rule 10 for this style). -/
structure DocStyle where
  name : List Char
  isParagraph : Bool
  outline : Option Int
  outlineRaises : Bool
  raises : Bool
deriving DecidableEq

/-- The outline-level mapping of rule 10: a value in [0,8] becomes a level
in [1,9]; anything else falls through to the conservative default. -/
def outlineLevel : Option Int → Option Nat
  | some ol => if 0 ≤ ol ∧ ol ≤ 8 then some (ol + 1).toNat else none
  | none => none

/-- Rules 10 and 11 of build_style_heading_map: explicit outline level
metadata mapped from [0,8] to a level in [1,9]; the inner try-except makes
a lookup error fall through to the conservative default (no heading). -/
def classifyRule10 (st : DocStyle) : Option Nat :=
  if st.outlineRaises then none else outlineLevel st.outline

/-- Rules 4 to 9 of build_style_heading_map, on the lowered stripped name
(the style_lower variable of the source). -/
def classifyFrom4 (st : DocStyle) : Option Nat :=
  if anySub strong_exclusions (pyStrip (pyLower st.name)) then none
  else if anySub medium_exclusions (pyStrip (pyLower st.name)) then none
  else if anySub international_patterns (pyStrip (pyLower st.name)) then
    some (_infer_heading_level st.name)
  else if containsSub hdgChars (pyStrip (pyLower st.name)) then
    (if containsSub styleWordChars (pyStrip (pyLower st.name)) then
      some (_infer_heading_level st.name)
    else if containsSub textWordChars (pyStrip (pyLower st.name)) then none
    else some (_infer_heading_level st.name))
  else if anySub org_patterns (pyStrip (pyLower st.name)) then
    some (_infer_heading_level st.name)
  else if anySub title_header_patterns (pyStrip (pyLower st.name)) then
    some (_infer_heading_level st.name)
  else classifyRule10 st

/-- Rule 3 of build_style_heading_map: exact, then case-insensitive,
membership in the set of built-in non-heading styles. -/
def classifyFrom3 (st : DocStyle) : Option Nat :=
  if st.name ∈ builtin_non_heading_styles then none
  else if builtin_non_heading_styles.any
      (fun b => pyLower b == pyStrip (pyLower st.name)) then none
  else classifyFrom4 st

/-- Dispatch on the result of the rule 2 numeric-leading match: level =
max(1, min(6, number of numeric segments)). -/
def classifyRule2 : Option Nat → DocStyle → Option Nat
  | some k, _ => some (max 1 (min 6 k))
  | none, st => classifyFrom3 st

/-- Rule 2 of build_style_heading_map. -/
def classifyFrom2 (st : DocStyle) : Option Nat :=
  classifyRule2 (numericLeadingSegs st.name) st

/-- Dispatch on the result of the rule 1 built-in heading match; the range
guard is inside the if, so an out-of-range number falls through to rule 2. -/
def classifyRule1 : Option Nat → DocStyle → Option Nat
  | some l, st => if 1 ≤ l ∧ l ≤ 9 then some l else classifyFrom2 st
  | none, st => classifyFrom2 st

/-- The complete per-style decision of build_style_heading_map (rules 1-11,
first match wins).  Returns the heading level, or none for body text. -/
def classifyStyleName (st : DocStyle) : Option Nat :=
  classifyRule1 (builtinHeadingLevel st.name) st

/-- The empty style-to-level map. -/
def emptyHeadingMap : List Char → Option Nat := fun _ => none

/-- Insertion of the classification outcome of one style into the map under
construction: a heading level is stored under the style name (a dict
assignment, so a later entry for the same key wins), body text leaves the
map unchanged. -/
def buildInsert (m : List Char → Option Nat) (st : DocStyle) :
    Option Nat → (List Char → Option Nat)
  | some l => fun k => if k = st.name then some l else m k
  | none => m

/-- One iteration of the loop of build_style_heading_map: only paragraph
styles with a truthy name are classified. -/
def buildStep (m : List Char → Option Nat) (st : DocStyle) :
    List Char → Option Nat :=
  if st.isParagraph && !st.name.isEmpty then
    buildInsert m st (classifyStyleName st)
  else m

/-- The loop of build_style_heading_map: a style whose inspection raises
ends the loop via the outer try-except, keeping the entries built so far. -/
def buildAux (m : List Char → Option Nat) : List DocStyle → (List Char → Option Nat)
  | [] => m
  | st :: rest => if st.raises then m else buildAux (buildStep m st) rest

/-- The document style catalog: readable is false when doc.styles itself
cannot be read (the outer try-except then yields an empty map). -/
structure StyleCatalog where
  readable : Bool
  styles : List DocStyle

/-- build_style_heading_map (style_analyzer.py lines 20-205): style name to
heading level for the styles classified as headings. -/
def build_style_heading_map (cat : StyleCatalog) : List Char → Option Nat :=
  if cat.readable then buildAux emptyHeadingMap cat.styles else emptyHeadingMap

example : builtinHeadingLevel ("Heading 3".toList) = some 3 := by decide
example : builtinHeadingLevel ("HEADING  7".toList) = some 7 := by decide
example : builtinHeadingLevel ("Heading 10".toList) = some 10 := by decide
example : builtinHeadingLevel ("Heading3".toList) = none := by decide
example : numericLeadingSegs ("1.2.3 Title".toList) = some 3 := by decide
example : numericLeadingSegs ("2-3 Section".toList) = some 2 := by decide
example : numericLeadingSegs ("12abc".toList) = none := by decide
example : numericLeadingSegs ("1.2abc".toList) = some 1 := by decide
example : numericLeadingSegs ("1.".toList) = some 1 := by decide
example : _infer_heading_level ("Subsection".toList) = 2 := by decide
example : _infer_heading_level ("Heading 0".toList) = 2 := by decide
example :
    classifyStyleName ⟨"Heading 0".toList, true, none, false, false⟩ = some 2 := by
  decide
example :
    classifyStyleName ⟨"Heading 10".toList, true, none, false, false⟩ = some 2 := by
  decide
example :
    classifyStyleName ⟨"Caption".toList, true, some 2, false, false⟩ = none := by
  decide
example :
    classifyStyleName ⟨"toc 3".toList, true, none, false, false⟩ = none := by
  decide
example :
    classifyStyleName ⟨"My Style".toList, true, some 4, false, false⟩ = some 5 := by
  decide
example :
    build_style_heading_map ⟨true, [⟨"Heading 3".toList, true, none, false, false⟩]⟩
      ("Heading 3".toList) = some 3 := by decide

/-! Character class facts used by the classification proofs. -/

theorem isDigitCh_lowerCh (c : Char) : isDigitCh (lowerCh c) = isDigitCh c := by
  unfold lowerCh
  split <;> first | rfl | (subst_vars; decide)

theorem isPySpace_lowerCh (c : Char) : isPySpace (lowerCh c) = isPySpace c := by
  unfold lowerCh
  split <;> first | rfl | (subst_vars; decide)

theorem lowerCh_fix_of_digit (c : Char) (h : isDigitCh (lowerCh c) = true) :
    lowerCh c = c := by
  revert h
  unfold lowerCh
  split <;> first | (intro _; rfl) | (subst_vars; decide)

theorem lowerCh_fix_of_space (c : Char) (h : isPySpace (lowerCh c) = true) :
    lowerCh c = c := by
  revert h
  unfold lowerCh
  split <;> first | (intro _; rfl) | (subst_vars; decide)

theorem not_digit_of_space {c : Char} (h : isPySpace c = true) :
    isDigitCh c = false := by
  simp [isPySpace] at h
  simp [isDigitCh]
  omega

theorem not_space_of_digit {c : Char} (h : isDigitCh c = true) :
    isPySpace c = false := by
  simp [isDigitCh] at h
  simp [isPySpace]
  omega

/-! List helpers for the regex model. -/

theorem dropWhile_append_all {p : Char → Bool} {a b : List Char}
    (h : ∀ c ∈ a, p c = true) :
    List.dropWhile p (a ++ b) = List.dropWhile p b := by
  induction a with
  | nil => rfl
  | cons x xs ih =>
    simp only [List.cons_append, List.dropWhile_cons]
    rw [h x (by simp)]
    exact ih (fun c hc => h c (by simp [hc]))

theorem takeWhile_append_all {p : Char → Bool} {a b : List Char}
    (h : ∀ c ∈ a, p c = true) :
    List.takeWhile p (a ++ b) = a ++ List.takeWhile p b := by
  induction a with
  | nil => rfl
  | cons x xs ih =>
    simp only [List.cons_append, List.takeWhile_cons]
    rw [h x (by simp), ih (fun c hc => h c (by simp [hc]))]
    simp

theorem map_eq_append_split {f : Char → Char} {l a b : List Char}
    (h : l.map f = a ++ b) :
    ∃ la lb, l = la ++ lb ∧ la.map f = a ∧ lb.map f = b := by
  induction a generalizing l with
  | nil => exact ⟨[], l, by simpa using h.symm, rfl, by simpa using h⟩
  | cons x xs ih =>
    cases l with
    | nil => simp at h
    | cons y ys =>
      simp only [List.map_cons, List.cons_append, List.cons.injEq] at h
      obtain ⟨la, lb, h1, h2, h3⟩ := ih h.2
      exact ⟨y :: la, lb, by simp [h1], by simp [h.1, h2], h3⟩

theorem map_fix_eq {f : Char → Char} {l : List Char}
    (h : ∀ c ∈ l, f c = c) : l.map f = l := by
  induction l with
  | nil => rfl
  | cons x xs ih =>
    simp only [List.map_cons]
    rw [h x (by simp), ih (fun c hc => h c (by simp [hc]))]

/-! Substring machinery facts. -/

theorem listStartsWith_append_self (w r : List Char) :
    listStartsWith w (w ++ r) = true := by
  induction w with
  | nil => rfl
  | cons x xs ih => simp [listStartsWith, ih]

theorem mem_of_listStartsWith {w h : List Char}
    (hs : listStartsWith w h = true) : ∀ c ∈ w, c ∈ h := by
  induction w generalizing h with
  | nil => simp
  | cons x xs ih =>
    cases h with
    | nil => simp [listStartsWith] at hs
    | cons y ys =>
      simp only [listStartsWith, Bool.and_eq_true, beq_iff_eq] at hs
      intro c hc
      rcases List.mem_cons.mp hc with rfl | hc
      · simp [hs.1]
      · exact List.mem_cons_of_mem _ (ih hs.2 c hc)

theorem mem_of_containsSub {w h : List Char}
    (hs : containsSub w h = true) : ∀ c ∈ w, c ∈ h := by
  induction h with
  | nil =>
    cases w with
    | nil => simp
    | cons x xs => simp [containsSub, listStartsWith] at hs
  | cons y ys ih =>
    simp only [containsSub, Bool.or_eq_true] at hs
    rcases hs with hs | hs
    · exact mem_of_listStartsWith hs
    · exact fun c hc => List.mem_cons_of_mem _ (ih hs c hc)

theorem containsSub_of_listStartsWith {w h : List Char}
    (hs : listStartsWith w h = true) : containsSub w h = true := by
  cases h <;> simp [containsSub, hs]

theorem containsSub_eq_false_of_charset {p : Char → Bool} {w h : List Char}
    (hw : w.any (fun c => !p c) = true) (hh : ∀ c ∈ h, p c = true) :
    containsSub w h = false := by
  by_contra hc
  rw [Bool.not_eq_false] at hc
  simp only [List.any_eq_true, Bool.not_eq_true'] at hw
  obtain ⟨c, hcw, hcp⟩ := hw
  have := hh c (mem_of_containsSub hc c hcw)
  rw [this] at hcp
  cases hcp

theorem anySub_eq_false_of_charset {p : Char → Bool} {ws : List (List Char)}
    {h : List Char}
    (hw : ws.all (fun w => w.any (fun c => !p c)) = true)
    (hh : ∀ c ∈ h, p c = true) :
    anySub ws h = false := by
  simp only [List.all_eq_true] at hw
  simp only [anySub, List.any_eq_false]
  intro w hwmem
  simp [containsSub_eq_false_of_charset (hw w hwmem) hh]

/-! Inversion facts for the regex models. -/

theorem takeWhile_pred {p : Char → Bool} {l : List Char} :
    ∀ c ∈ l.takeWhile p, p c = true := by
  induction l with
  | nil => simp
  | cons x xs ih =>
    intro c hc
    rw [List.takeWhile_cons] at hc
    by_cases hx : p x = true
    · rw [if_pos hx] at hc
      rcases List.mem_cons.mp hc with rfl | hc
      · exact hx
      · exact ih c hc
    · rw [if_neg hx] at hc
      simp at hc

theorem dropStart_eq_append {pat l r : List Char}
    (h : dropStart pat l = some r) : l = pat ++ r := by
  induction pat generalizing l with
  | nil =>
    simp only [dropStart, Option.some.injEq] at h
    simp [h]
  | cons p ps ih =>
    cases l with
    | nil => simp [dropStart] at h
    | cons c cs =>
      simp only [dropStart] at h
      by_cases hc : c = p
      · rw [if_pos hc] at h
        subst hc
        simp [ih h]
      · rw [if_neg hc] at h
        cases h

theorem bhlAux_inversion {l : List Char} {n : Nat} (h : bhlAux l = some n) :
    ∃ sp ds nl, l = hdgChars ++ sp ++ ds ++ nl ∧ sp ≠ [] ∧
      (∀ c ∈ sp, isPySpace c = true) ∧ ds ≠ [] ∧
      (∀ c ∈ ds, isDigitCh c = true) ∧ (nl = [] ∨ nl = ['\n']) ∧
      n = natOfDigits ds := by
  unfold bhlAux at h
  cases hd : dropStart hdgChars l with
  | none => rw [hd] at h; cases h
  | some rest =>
    rw [hd] at h
    simp only [bhlTail] at h
    by_cases h1 : (rest.takeWhile isPySpace).isEmpty = true
    · rw [if_pos h1] at h; cases h
    · rw [if_neg h1] at h
      by_cases h2 : ((rest.dropWhile isPySpace).takeWhile isDigitCh).isEmpty = true
      · rw [if_pos h2] at h; cases h
      · rw [if_neg h2] at h
        by_cases h3 : (rest.dropWhile isPySpace).dropWhile isDigitCh = [] ∨
            (rest.dropWhile isPySpace).dropWhile isDigitCh = ['\n']
        · rw [if_pos h3] at h
          refine ⟨rest.takeWhile isPySpace,
            (rest.dropWhile isPySpace).takeWhile isDigitCh,
            (rest.dropWhile isPySpace).dropWhile isDigitCh,
            ?_, ?_, ?_, ?_, ?_, h3, (Option.some.injEq _ _).mp h.symm⟩
          · rw [dropStart_eq_append hd]
            simp only [List.append_assoc]
            congr 1
            conv_lhs => rw [← List.takeWhile_append_dropWhile isPySpace rest]
            congr 1
            exact (List.takeWhile_append_dropWhile isDigitCh
              (rest.dropWhile isPySpace)).symm
          · simpa using h1
          · exact takeWhile_pred
          · simpa using h2
          · exact takeWhile_pred
        · rw [if_neg h3] at h; cases h

theorem firstNumber_append_nondigit {a r : List Char}
    (h : ∀ c ∈ a, isDigitCh c = false) :
    firstNumber (a ++ r) = firstNumber r := by
  induction a with
  | nil => rfl
  | cons x xs ih =>
    have hx := h x (by simp)
    simp [firstNumber, hx, ih (fun c hc => h c (by simp [hc]))]

theorem firstNumber_digit_run {ds rest : List Char} (hne : ds ≠ [])
    (hd : ∀ c ∈ ds, isDigitCh c = true)
    (hr : rest = [] ∨ ∃ c t, rest = c :: t ∧ isDigitCh c = false) :
    firstNumber (ds ++ rest) = some (natOfDigits ds) := by
  cases ds with
  | nil => exact absurd rfl hne
  | cons d ds2 =>
    have hd0 := hd d (by simp)
    have hts : List.takeWhile isDigitCh (ds2 ++ rest) = ds2 := by
      rw [takeWhile_append_all (fun c hc => hd c (by simp [hc]))]
      rcases hr with rfl | ⟨c, t, rfl, hc⟩
      · simp
      · rw [List.takeWhile_cons, hc]
        simp
    simp [firstNumber, hd0, hts]

theorem numericLeadingSegs_cons_none {c : Char} {t : List Char}
    (h1 : isPySpace c = false) (h2 : isDigitCh c = false) :
    numericLeadingSegs (c :: t) = none := by
  unfold numericLeadingSegs
  rw [List.dropWhile_cons, h1]
  simp only [Bool.false_eq_true, if_false, List.takeWhile_cons, h2]
  simp

theorem numericLeadingSegs_pos {s : List Char} {k : Nat}
    (h : numericLeadingSegs s = some k) : 1 ≤ k := by
  unfold numericLeadingSegs at h
  by_cases h1 : ((s.dropWhile isPySpace).takeWhile isDigitCh).isEmpty = true
  · rw [if_pos h1] at h; cases h
  · rw [if_neg h1] at h
    cases hs : segsGo 8 ((s.dropWhile isPySpace).dropWhile isDigitCh) with
    | none => rw [hs] at h; cases h
    | some extra =>
      rw [hs] at h
      simp only [Option.some.injEq] at h
      omega

theorem pyStrip_decomp {sp ds nl : List Char}
    (hsp : ∀ c ∈ sp, isPySpace c = true)
    (hdsne : ds ≠ []) (hds : ∀ c ∈ ds, isDigitCh c = true)
    (hnl : nl = [] ∨ nl = ['\n']) :
    pyStrip (hdgChars ++ sp ++ ds ++ nl) = hdgChars ++ sp ++ ds := by
  have hH : isPySpace 'h' = false := by decide
  have h1 : (hdgChars ++ sp ++ ds ++ nl).dropWhile isPySpace =
      hdgChars ++ sp ++ ds ++ nl := by
    rw [show hdgChars ++ sp ++ ds ++ nl =
        'h' :: (['e', 'a', 'd', 'i', 'n', 'g'] ++ sp ++ ds ++ nl) from by
      simp [hdgChars]]
    rw [List.dropWhile_cons, hH]
    simp
  obtain ⟨d, rds, hrev⟩ : ∃ d rds, ds.reverse = d :: rds := by
    cases hrv : ds.reverse with
    | nil => exact absurd (by simpa using hrv) hdsne
    | cons d rds => exact ⟨d, rds, rfl⟩
  have hdmem : d ∈ ds := by
    have : d ∈ ds.reverse := by rw [hrev]; simp
    simpa using this
  have hdnotsp : isPySpace d = false := not_space_of_digit (hds d hdmem)
  have h2 : (hdgChars ++ sp ++ ds ++ nl).reverse.dropWhile isPySpace =
      ds.reverse ++ sp.reverse ++ hdgChars.reverse := by
    simp only [List.reverse_append]
    have hnlsp : ∀ c ∈ nl.reverse, isPySpace c = true := by
      rcases hnl with rfl | rfl
      · simp
      · intro c hc; simp at hc; subst hc; decide
    rw [← List.append_assoc, ← List.append_assoc]
    rw [show nl.reverse ++ ds.reverse ++ sp.reverse ++ hdgChars.reverse =
        nl.reverse ++ (ds.reverse ++ sp.reverse ++ hdgChars.reverse) from by
      simp [List.append_assoc]]
    rw [dropWhile_append_all hnlsp]
    rw [hrev]
    simp only [List.cons_append, List.dropWhile_cons, hdnotsp]
    simp [List.append_assoc]
  unfold pyStrip
  rw [h1, h2]
  simp

theorem builtinHeadingLevel_inversion {s : List Char} {n : Nat}
    (h : builtinHeadingLevel s = some n) :
    ∃ sp ds nl, pyLower s = hdgChars ++ sp ++ ds ++ nl ∧ sp ≠ [] ∧
      (∀ c ∈ sp, isPySpace c = true) ∧ ds ≠ [] ∧
      (∀ c ∈ ds, isDigitCh c = true) ∧ (nl = [] ∨ nl = ['\n']) ∧
      n = natOfDigits ds :=
  bhlAux_inversion h

/-! Checked facts about the classifier vocabularies. -/

/-- Characters that can occur in a lowered built-in-heading-shaped name:
whitespace, digits, and the letters of the word heading. -/
def allowedHeadingNameCh (c : Char) : Bool :=
  isPySpace c || isDigitCh c || decide (c ∈ hdgChars)

theorem builtins_not_hdg_start :
    builtin_non_heading_styles.all
      (fun b => !listStartsWith hdgChars (pyLower b)) = true := by decide

theorem builtins_bhl_none :
    builtin_non_heading_styles.all
      (fun b => (bhlAux (pyLower b)).isNone) = true := by decide

theorem builtins_head_nonnumeric :
    builtin_non_heading_styles.all (fun b =>
      match pyLower b with
      | [] => false
      | c :: _ => !isPySpace c && !isDigitCh c) = true := by decide

theorem builtins_strip_fix :
    builtin_non_heading_styles.all
      (fun b => pyStrip (pyLower b) == pyLower b) = true := by decide

theorem strong_ex_disallowed :
    strong_exclusions.all
      (fun w => w.any (fun c => !allowedHeadingNameCh c)) = true := by decide

theorem medium_ex_disallowed :
    medium_exclusions.all
      (fun w => w.any (fun c => !allowedHeadingNameCh c)) = true := by decide

theorem intl_disallowed :
    international_patterns.all
      (fun w => w.any (fun c => !allowedHeadingNameCh c)) = true := by decide

theorem styleWord_disallowed :
    styleWordChars.any (fun c => !allowedHeadingNameCh c) = true := by decide

theorem textWord_disallowed :
    textWordChars.any (fun c => !allowedHeadingNameCh c) = true := by decide

theorem tier1_disallowed :
    tier1_words.all
      (fun w => w.any (fun c => !allowedHeadingNameCh c)) = true := by decide

theorem tier2_disallowed :
    tier2_words.all
      (fun w => w.any (fun c => !allowedHeadingNameCh c)) = true := by decide

theorem tier3_disallowed :
    tier3_words.all
      (fun w => w.any (fun c => !allowedHeadingNameCh c)) = true := by decide

theorem hdgChars_not_digit : ∀ x ∈ hdgChars, isDigitCh x = false := by decide

/-! Facts about the map construction loop. -/

theorem buildStep_apply_none {m : List Char → Option Nat} {st : DocStyle}
    (h : classifyStyleName st = none) : buildStep m st = m := by
  unfold buildStep
  rw [h]
  simp [buildInsert]

theorem buildStep_apply_other {m : List Char → Option Nat} {st : DocStyle}
    {k : List Char} (h : k ≠ st.name) : buildStep m st k = m k := by
  unfold buildStep
  by_cases hp : (st.isParagraph && !st.name.isEmpty) = true
  · rw [if_pos hp]
    cases hcl : classifyStyleName st with
    | none => simp [buildInsert]
    | some l => simp [buildInsert, h]
  · rw [if_neg hp]

theorem buildAux_untouched {styles : List DocStyle}
    {m : List Char → Option Nat} {key : List Char}
    (h : ∀ st ∈ styles, st.name = key → classifyStyleName st = none) :
    buildAux m styles key = m key := by
  induction styles generalizing m with
  | nil => rfl
  | cons st rest ih =>
    unfold buildAux
    by_cases hr : st.raises = true
    · rw [if_pos hr]
    · rw [if_neg hr]
      rw [ih (fun s hs hn => h s (by simp [hs]) hn)]
      by_cases hk : key = st.name
      · rw [buildStep_apply_none (h st (by simp) hk.symm), hk]
      · exact buildStep_apply_other hk

theorem buildAux_preserve {styles : List DocStyle}
    {m : List Char → Option Nat} {key : List Char} {v : Nat}
    (hm : m key = some v)
    (hcl : ∀ st ∈ styles, st.name = key → classifyStyleName st = some v) :
    buildAux m styles key = some v := by
  induction styles generalizing m with
  | nil => exact hm
  | cons st rest ih =>
    unfold buildAux
    by_cases hr : st.raises = true
    · rw [if_pos hr]; exact hm
    · rw [if_neg hr]
      refine ih ?_ (fun s hs hn => hcl s (by simp [hs]) hn)
      by_cases hk : key = st.name
      · have hc := hcl st (by simp) hk.symm
        by_cases hp : (st.isParagraph && !st.name.isEmpty) = true
        · unfold buildStep
          rw [if_pos hp, hc]
          simp [buildInsert, hk]
        · unfold buildStep
          rw [if_neg hp]
          exact hm
      · rw [buildStep_apply_other hk]; exact hm

theorem buildAux_found {styles : List DocStyle}
    {m : List Char → Option Nat} {key : List Char} {v : Nat}
    (hraise : ∀ st ∈ styles, st.raises = false)
    (hcl : ∀ st ∈ styles, st.name = key → classifyStyleName st = some v)
    (hex : ∃ st ∈ styles, st.name = key ∧ st.isParagraph = true)
    (hkne : key ≠ []) :
    buildAux m styles key = some v := by
  induction styles generalizing m with
  | nil =>
    obtain ⟨st, h, _⟩ := hex
    cases h
  | cons st rest ih =>
    have hr := hraise st (by simp)
    unfold buildAux
    rw [if_neg (by simp [hr])]
    obtain ⟨st0, hst0, hname0, hpar0⟩ := hex
    rcases List.mem_cons.mp hst0 with rfl | hst0rest
    · refine buildAux_preserve ?_ (fun s hs hn => hcl s (by simp [hs]) hn)
      have hc := hcl st0 (by simp) hname0
      have hcond : (st0.isParagraph && !st0.name.isEmpty) = true := by
        rw [hpar0, hname0]
        simp [hkne]
      unfold buildStep
      rw [if_pos hcond, hc]
      simp [buildInsert, hname0]
    · exact ih (fun s hs => hraise s (by simp [hs]))
        (fun s hs hn => hcl s (by simp [hs]) hn) ⟨st0, hst0rest, hname0, hpar0⟩

theorem build_lookup_some {styles : List DocStyle} {key : List Char} {v : Nat}
    (hraise : ∀ st ∈ styles, st.raises = false)
    (hcl : ∀ st ∈ styles, st.name = key → classifyStyleName st = some v)
    (hex : ∃ st ∈ styles, st.name = key ∧ st.isParagraph = true)
    (hkne : key ≠ []) :
    build_style_heading_map ⟨true, styles⟩ key = some v := by
  unfold build_style_heading_map
  exact buildAux_found hraise hcl hex hkne

theorem build_lookup_none {styles : List DocStyle} {key : List Char}
    (h : ∀ st ∈ styles, st.name = key → classifyStyleName st = none) :
    build_style_heading_map ⟨true, styles⟩ key = none := by
  unfold build_style_heading_map
  rw [if_pos rfl, buildAux_untouched h]
  rfl

/-! Per-name classification outcomes. -/

theorem classify_of_bhl_inrange {name : List Char} {n : Nat}
    (hb : builtinHeadingLevel name = some n) (h1 : 1 ≤ n) (h9 : n ≤ 9) :
    ∀ st : DocStyle, st.name = name → classifyStyleName st = some n := by
  intro st hst
  unfold classifyStyleName
  rw [hst, hb]
  simp [classifyRule1, h1, h9]

theorem classify_of_numeric {name : List Char} {k : Nat}
    (hb : builtinHeadingLevel name = none)
    (hk : numericLeadingSegs name = some k) :
    ∀ st : DocStyle, st.name = name →
      classifyStyleName st = some (max 1 (min 6 k)) := by
  intro st hst
  unfold classifyStyleName
  rw [hst, hb]
  simp only [classifyRule1]
  unfold classifyFrom2
  rw [hst, hk]
  simp [classifyRule2]

theorem classify_of_builtin_variant {name b : List Char}
    (hb : b ∈ builtin_non_heading_styles) (hl : pyLower name = pyLower b) :
    ∀ st : DocStyle, st.name = name → classifyStyleName st = none := by
  intro st hst
  have hbhl : builtinHeadingLevel name = none := by
    unfold builtinHeadingLevel
    rw [hl]
    have hfact := List.all_eq_true.mp builtins_bhl_none b hb
    simpa [Option.isNone_iff_eq_none] using hfact
  have hnum : numericLeadingSegs name = none := by
    have hhead := List.all_eq_true.mp builtins_head_nonnumeric b hb
    cases hplb : pyLower b with
    | nil =>
      rw [hplb] at hhead
      simp at hhead
    | cons c cr =>
      rw [hplb] at hhead
      simp only [Bool.and_eq_true, Bool.not_eq_true'] at hhead
      have hln : pyLower name = c :: cr := hl.trans hplb
      cases name with
      | nil => cases hln
      | cons c0 t =>
        simp only [pyLower, List.map_cons, List.cons.injEq] at hln
        have hsp0 : isPySpace c0 = false := by
          rw [← isPySpace_lowerCh, hln.1]
          exact hhead.1
        have hdg0 : isDigitCh c0 = false := by
          rw [← isDigitCh_lowerCh, hln.1]
          exact hhead.2
        exact numericLeadingSegs_cons_none hsp0 hdg0
  unfold classifyStyleName
  rw [hst, hbhl]
  simp only [classifyRule1]
  unfold classifyFrom2
  rw [hst, hnum]
  simp only [classifyRule2]
  unfold classifyFrom3
  rw [hst]
  by_cases hmem : name ∈ builtin_non_heading_styles
  · rw [if_pos hmem]
  · rw [if_neg hmem]
    have hci : builtin_non_heading_styles.any
        (fun x => pyLower x == pyStrip (pyLower name)) = true := by
      refine List.any_eq_true.mpr ⟨b, hb, ?_⟩
      have hfix := List.all_eq_true.mp builtins_strip_fix b hb
      simp only [beq_iff_eq] at hfix ⊢
      rw [hl, hfix]
    rw [if_pos hci]

theorem classify_of_heading_out_of_range {name : List Char} {n : Nat}
    (hb : builtinHeadingLevel name = some n) (hn : ¬(1 ≤ n ∧ n ≤ 9)) :
    ∀ st : DocStyle, st.name = name → classifyStyleName st = some 2 := by
  intro st hst
  obtain ⟨sp, ds, nl, hmap, hspne, hsp, hdsne, hds, hnl, hnval⟩ :=
    builtinHeadingLevel_inversion hb
  have hmap2 : pyLower name = hdgChars ++ (sp ++ (ds ++ nl)) := by
    rw [hmap]; simp [List.append_assoc]
  obtain ⟨t1, r1, hn1, ht1, hr1⟩ := map_eq_append_split hmap2
  obtain ⟨t2, r2, hn2, ht2, hr2⟩ := map_eq_append_split hr1
  obtain ⟨t3, t4, hn3, ht3, ht4⟩ := map_eq_append_split hr2
  have hfix3 : ∀ c ∈ t3, lowerCh c = c := by
    intro c hc
    exact lowerCh_fix_of_digit c (hds _ (ht3 ▸ List.mem_map_of_mem lowerCh hc))
  have ht3fix : t3 = ds := by
    rw [← ht3, map_fix_eq hfix3]
  have ht4fix : t4 = nl := by
    rcases hnl with rfl | rfl
    · simpa using ht4
    · cases t4 with
      | nil => simp at ht4
      | cons c4 t4r =>
        simp only [List.map_cons, List.cons.injEq] at ht4
        have h4r : t4r = [] := by simpa using ht4.2
        have hsp4 : isPySpace (lowerCh c4) = true := by rw [ht4.1]; decide
        have hfx := lowerCh_fix_of_space c4 hsp4
        rw [h4r, hfx.symm.trans ht4.1]
  have ht1cons : ∃ c0 t1r, t1 = c0 :: t1r ∧ lowerCh c0 = 'h' := by
    cases t1 with
    | nil => simp [hdgChars] at ht1
    | cons c0 t1r =>
      rw [show hdgChars = 'h' :: ['e', 'a', 'd', 'i', 'n', 'g'] from rfl] at ht1
      simp only [List.map_cons, List.cons.injEq] at ht1
      exact ⟨c0, t1r, rfl, ht1.1⟩
  have ht1nd : ∀ c ∈ t1, isDigitCh c = false := by
    intro c hc
    rw [← isDigitCh_lowerCh]
    exact hdgChars_not_digit _ (ht1 ▸ List.mem_map_of_mem lowerCh hc)
  have ht2nd : ∀ c ∈ t2, isDigitCh c = false := by
    intro c hc
    rw [← isDigitCh_lowerCh]
    exact not_digit_of_space (hsp _ (ht2 ▸ List.mem_map_of_mem lowerCh hc))
  have hfn : firstNumber name = some (natOfDigits ds) := by
    rw [hn1, hn2, hn3, ht3fix, ht4fix]
    rw [firstNumber_append_nondigit ht1nd, firstNumber_append_nondigit ht2nd]
    refine firstNumber_digit_run hdsne hds ?_
    rcases hnl with rfl | rfl
    · exact Or.inl rfl
    · exact Or.inr ⟨'\n', [], rfl, by decide⟩
  have hstrip : pyStrip (pyLower name) = hdgChars ++ sp ++ ds := by
    rw [hmap]
    exact pyStrip_decomp hsp hdsne hds hnl
  have hallStrip : ∀ c ∈ hdgChars ++ sp ++ ds, allowedHeadingNameCh c = true := by
    intro c hc
    simp only [List.append_assoc, List.mem_append] at hc
    unfold allowedHeadingNameCh
    rcases hc with hc | hc | hc
    · simp [hc]
    · simp [hsp c hc]
    · simp [hds c hc]
  have hallLower : ∀ c ∈ pyLower name, allowedHeadingNameCh c = true := by
    intro c hc
    rw [hmap] at hc
    simp only [List.append_assoc, List.mem_append] at hc
    unfold allowedHeadingNameCh
    rcases hc with hc | hc | hc | hc
    · simp [hc]
    · simp [hsp c hc]
    · simp [hds c hc]
    · rcases hnl with rfl | rfl
      · cases hc
      · simp at hc
        subst hc
        decide
  have hinf : _infer_heading_level name = 2 := by
    unfold _infer_heading_level
    rw [hfn, ← hnval]
    simp only [inferFromNumber]
    rw [if_neg hn]
    unfold semanticLevel
    rw [anySub_eq_false_of_charset tier1_disallowed hallLower,
        anySub_eq_false_of_charset tier2_disallowed hallLower,
        anySub_eq_false_of_charset tier3_disallowed hallLower]
    simp
  have hnum : numericLeadingSegs name = none := by
    obtain ⟨c0, t1r, ht1c, hc0⟩ := ht1cons
    have hc0sp : isPySpace c0 = false := by
      rw [← isPySpace_lowerCh, hc0]; decide
    have hc0dg : isDigitCh c0 = false := by
      rw [← isDigitCh_lowerCh, hc0]; decide
    rw [hn1, ht1c]
    simp only [List.cons_append]
    exact numericLeadingSegs_cons_none hc0sp hc0dg
  have hmem : name ∉ builtin_non_heading_styles := by
    intro hmem
    have hfact := List.all_eq_true.mp builtins_not_hdg_start name hmem
    rw [hmap] at hfact
    simp only [List.append_assoc] at hfact
    rw [listStartsWith_append_self] at hfact
    simp at hfact
  have hciF : ¬(builtin_non_heading_styles.any
      (fun x => pyLower x == pyStrip (pyLower name)) = true) := by
    intro habs
    obtain ⟨x, hx, hbeq⟩ := List.any_eq_true.mp habs
    have hfact := List.all_eq_true.mp builtins_not_hdg_start x hx
    simp only [beq_iff_eq] at hbeq
    rw [hbeq, hstrip] at hfact
    simp only [List.append_assoc] at hfact
    rw [listStartsWith_append_self] at hfact
    simp at hfact
  have hhdgT : containsSub hdgChars (hdgChars ++ sp ++ ds) = true := by
    apply containsSub_of_listStartsWith
    simp only [List.append_assoc]
    exact listStartsWith_append_self _ _
  unfold classifyStyleName
  rw [hst, hb]
  simp only [classifyRule1]
  rw [if_neg hn]
  unfold classifyFrom2
  rw [hst, hnum]
  simp only [classifyRule2]
  unfold classifyFrom3
  rw [hst]
  rw [if_neg hmem, if_neg hciF]
  unfold classifyFrom4
  rw [hst, hstrip]
  rw [anySub_eq_false_of_charset strong_ex_disallowed hallStrip,
      anySub_eq_false_of_charset medium_ex_disallowed hallStrip,
      anySub_eq_false_of_charset intl_disallowed hallStrip,
      hhdgT,
      containsSub_eq_false_of_charset styleWord_disallowed hallStrip,
      containsSub_eq_false_of_charset textWord_disallowed hallStrip]
  simp [hinf]

/-! Range invariants for the classifier (levels stay within [1,9]). -/

theorem _infer_heading_level_range (name : List Char) :
    1 ≤ _infer_heading_level name ∧ _infer_heading_level name ≤ 9 := by
  unfold _infer_heading_level
  cases firstNumber name with
  | none =>
    simp only [inferFromNumber]
    unfold semanticLevel
    split_ifs <;> omega
  | some v =>
    simp only [inferFromNumber]
    split_ifs with hr
    · omega
    all_goals (unfold semanticLevel; split_ifs <;> omega)

theorem classifyRule10_range {st : DocStyle} {l : Nat}
    (h : classifyRule10 st = some l) : 1 ≤ l ∧ l ≤ 9 := by
  unfold classifyRule10 at h
  split_ifs at h
  cases ho : st.outline with
  | none => rw [ho] at h; cases h
  | some ol =>
    rw [ho] at h
    simp only [outlineLevel] at h
    split_ifs at h with hol
    simp only [Option.some.injEq] at h
    subst h
    omega

theorem classifyFrom4_range {st : DocStyle} {l : Nat}
    (h : classifyFrom4 st = some l) : 1 ≤ l ∧ l ≤ 9 := by
  unfold classifyFrom4 at h
  split_ifs at h <;>
    first
      | (simp only [Option.some.injEq] at h; subst h;
         exact _infer_heading_level_range st.name)
      | (exact classifyRule10_range h)

theorem classifyFrom3_range {st : DocStyle} {l : Nat}
    (h : classifyFrom3 st = some l) : 1 ≤ l ∧ l ≤ 9 := by
  unfold classifyFrom3 at h
  split_ifs at h
  exact classifyFrom4_range h

theorem classifyFrom2_range {st : DocStyle} {l : Nat}
    (h : classifyFrom2 st = some l) : 1 ≤ l ∧ l ≤ 9 := by
  unfold classifyFrom2 at h
  cases hk : numericLeadingSegs st.name with
  | some k =>
    rw [hk] at h
    simp only [classifyRule2, Option.some.injEq] at h
    subst h
    omega
  | none =>
    rw [hk] at h
    simp only [classifyRule2] at h
    exact classifyFrom3_range h

theorem classifyStyleName_range {st : DocStyle} {l : Nat}
    (h : classifyStyleName st = some l) : 1 ≤ l ∧ l ≤ 9 := by
  unfold classifyStyleName at h
  cases hb : builtinHeadingLevel st.name with
  | some n =>
    rw [hb] at h
    simp only [classifyRule1] at h
    split_ifs at h with hr
    · simp only [Option.some.injEq] at h
      subst h
      exact hr
    · exact classifyFrom2_range h
  | none =>
    rw [hb] at h
    simp only [classifyRule1] at h
    exact classifyFrom2_range h

theorem buildAux_range {styles : List DocStyle} {m : List Char → Option Nat}
    (hm : ∀ k l, m k = some l → 1 ≤ l ∧ l ≤ 9) :
    ∀ k l, buildAux m styles k = some l → 1 ≤ l ∧ l ≤ 9 := by
  induction styles generalizing m with
  | nil => exact hm
  | cons st rest ih =>
    intro k l h
    unfold buildAux at h
    by_cases hr : st.raises = true
    · rw [if_pos hr] at h
      exact hm k l h
    · rw [if_neg hr] at h
      refine ih ?_ k l h
      intro k2 l2 h2
      unfold buildStep at h2
      split_ifs at h2 with hp
      · cases hcl : classifyStyleName st with
        | some v =>
          rw [hcl] at h2
          simp only [buildInsert] at h2
          by_cases hk2 : k2 = st.name
          · rw [if_pos hk2] at h2
            simp only [Option.some.injEq] at h2
            subst h2
            exact classifyStyleName_range hcl
          · rw [if_neg hk2] at h2
            exact hm _ _ h2
        | none =>
          rw [hcl] at h2
          simp only [buildInsert] at h2
          exact hm _ _ h2
      · exact hm _ _ h2

/-! Small helper facts for the claim statements. -/

theorem bhl_some_key_ne_nil {name : List Char} {n : Nat}
    (hb : builtinHeadingLevel name = some n) : name ≠ [] := by
  intro hnil
  subst hnil
  have hx : builtinHeadingLevel ([] : List Char) = none := by decide
  rw [hx] at hb
  cases hb

theorem numeric_some_key_ne_nil {name : List Char} {k : Nat}
    (h : numericLeadingSegs name = some k) : name ≠ [] := by
  intro hnil
  subst hnil
  have hx : numericLeadingSegs ([] : List Char) = none := by decide
  rw [hx] at h
  cases h

/-! Claim theorems for the style classifier. -/

/-- C1: for every paragraph style of the catalog whose name matches the
built-in pattern Heading-whitespace-digits case-insensitively with trailing
number N in [1,9], build_style_heading_map maps that style name to level
exactly N (catalog readable, no per-style inspection error ends the loop). -/
theorem C1_builtin_heading_exact_level (styles : List DocStyle)
    (key : List Char) (n : Nat)
    (hb : builtinHeadingLevel key = some n) (h1 : 1 ≤ n) (h9 : n ≤ 9)
    (hraise : ∀ st ∈ styles, st.raises = false)
    (hex : ∃ st ∈ styles, st.name = key ∧ st.isParagraph = true) :
    build_style_heading_map ⟨true, styles⟩ key = some n :=
  build_lookup_some hraise (fun st _ => classify_of_bhl_inrange hb h1 h9 st) hex
    (bhl_some_key_ne_nil hb)

/-- Witness for C1 at the concrete style Heading 3. -/
theorem C1_builtin_heading_exact_level_witness :
    build_style_heading_map
      ⟨true, [⟨"Heading 3".toList, true, none, false, false⟩]⟩
      ("Heading 3".toList) = some 3 :=
  C1_builtin_heading_exact_level _ _ 3 (by decide) (by decide) (by decide)
    (by decide) (by decide)

/-- C4: a paragraph style whose name matches the numeric-leading pattern
with k numeric segments, and does not match the built-in heading pattern,
is mapped to level min(6, k), which is at least 1. -/
theorem C4_numeric_leading_level (styles : List DocStyle)
    (key : List Char) (k : Nat)
    (hbn : builtinHeadingLevel key = none)
    (hk : numericLeadingSegs key = some k)
    (hraise : ∀ st ∈ styles, st.raises = false)
    (hex : ∃ st ∈ styles, st.name = key ∧ st.isParagraph = true) :
    build_style_heading_map ⟨true, styles⟩ key = some (min 6 k) ∧
      1 ≤ min 6 k := by
  have hpos := numericLeadingSegs_pos hk
  have hmax : max 1 (min 6 k) = min 6 k := by omega
  constructor
  · rw [← hmax]
    exact build_lookup_some hraise (fun st _ => classify_of_numeric hbn hk st) hex
      (numeric_some_key_ne_nil hk)
  · omega

/-- Witness for C4 at the concrete style 1.2.3 Title (three segments). -/
theorem C4_numeric_leading_level_witness :
    build_style_heading_map
      ⟨true, [⟨"1.2.3 Title".toList, true, none, false, false⟩]⟩
      ("1.2.3 Title".toList) = some (min 6 3) ∧ 1 ≤ min 6 3 :=
  C4_numeric_leading_level _ _ 3 (by decide) (by decide) (by decide)
    (by decide)

/-- C5: a style whose name is, in any letter case, one of the enumerated
built-in non-heading style names is never a key of the returned heading map
(stated via equality of the lowered forms, which captures exactly the
letter-case variants). -/
theorem C5_builtin_non_heading_excluded (styles : List DocStyle)
    (key b : List Char)
    (hbmem : b ∈ builtin_non_heading_styles)
    (hcase : pyLower key = pyLower b) :
    build_style_heading_map ⟨true, styles⟩ key = none :=
  build_lookup_none (fun st _ => classify_of_builtin_variant hbmem hcase st)

/-- Witness for C5 at the concrete style fOOTNOTE tEXT. -/
theorem C5_builtin_non_heading_excluded_witness :
    build_style_heading_map
      ⟨true, [⟨"fOOTNOTE tEXT".toList, true, some 0, false, false⟩]⟩
      ("fOOTNOTE tEXT".toList) = none :=
  C5_builtin_non_heading_excluded _ _ ("Footnote Text".toList) (by decide)
    (by decide)

/-- C9: every level stored in the map returned by build_style_heading_map
is in [1,9], for any catalog whatsoever. -/
theorem C9_levels_in_range (cat : StyleCatalog) (k : List Char) (l : Nat)
    (h : build_style_heading_map cat k = some l) : 1 ≤ l ∧ l ≤ 9 := by
  unfold build_style_heading_map at h
  split_ifs at h
  · refine buildAux_range ?_ k l h
    intro k2 l2 h2
    simp [emptyHeadingMap] at h2
  · simp [emptyHeadingMap] at h

/-- Witness for C9 at a concrete outline-level style (outline 6, level 7). -/
theorem C9_levels_in_range_witness : 1 ≤ 7 ∧ 7 ≤ 9 :=
  C9_levels_in_range
    ⟨true, [⟨"My Special".toList, true, some 6, false, false⟩]⟩
    ("My Special".toList) 7 (by decide)

/-- C10: a paragraph style named Heading-N with N outside [1,9] is not
rejected: it falls past rule 1 and is classified at level 2 through the
heading-substring rule combined with the inference default tier. -/
theorem C10_out_of_range_heading_level_two (styles : List DocStyle)
    (key : List Char) (n : Nat)
    (hb : builtinHeadingLevel key = some n) (hn : ¬(1 ≤ n ∧ n ≤ 9))
    (hraise : ∀ st ∈ styles, st.raises = false)
    (hex : ∃ st ∈ styles, st.name = key ∧ st.isParagraph = true) :
    build_style_heading_map ⟨true, styles⟩ key = some 2 :=
  build_lookup_some hraise (fun st _ => classify_of_heading_out_of_range hb hn st) hex
    (bhl_some_key_ne_nil hb)

/-- Witness for C10 at the concrete style Heading 0. -/
theorem C10_out_of_range_heading_level_two_witness :
    build_style_heading_map
      ⟨true, [⟨"Heading 0".toList, true, none, false, false⟩]⟩
      ("Heading 0".toList) = some 2 :=
  C10_out_of_range_heading_level_two _ _ 0 (by decide) (by decide)
    (by decide) (by decide)

/-- C6: evaluation of the level-inference function at the failing input
Subsection: the name has no digit, contains the subsection keyword and none
of the tier-1 keywords, yet the function returns 2, not 3 - the substring
section of subsection matches the tier-2 check first, so the tier-3 branch
is unreachable for digit-free subsection and subchapter names. -/
theorem C6_infer_subsection_returns_two :
    _infer_heading_level ("Subsection".toList) = 2 := by decide

/-! Error semantics of the classification loop (claim C7). -/

/-- A style whose attribute inspection raises (used by the C7 statements). -/
def styleThatRaises : DocStyle := ⟨"Broken".toList, true, none, false, true⟩

/-- An ordinary built-in heading style (used by the C7 statements). -/
def styleHeadingOne : DocStyle := ⟨"Heading 1".toList, true, none, false, false⟩

/-- C7 counterexample: with a style whose inspection raises followed by the
paragraph style Heading 1, the claim predicts that only the offending style
is skipped and Heading 1 is still classified at level 1; the code instead
ends the whole loop at the offending style (the outer try-except wraps the
for loop), so Heading 1 is absent from the returned map, although the same
catalog without the offending style yields level 1. -/
theorem C7_counterexample :
    build_style_heading_map ⟨true, [styleThatRaises, styleHeadingOne]⟩
        ("Heading 1".toList) = none ∧
    ¬(build_style_heading_map ⟨true, [styleThatRaises, styleHeadingOne]⟩
        ("Heading 1".toList) = some 1) ∧
    build_style_heading_map ⟨true, [styleHeadingOne]⟩
        ("Heading 1".toList) = some 1 := by decide

theorem buildAux_stops {pre post : List DocStyle} {st : DocStyle}
    {m : List Char → Option Nat}
    (hst : st.raises = true) (hpre : ∀ p ∈ pre, p.raises = false) :
    buildAux m (pre ++ st :: post) = buildAux m pre := by
  induction pre generalizing m with
  | nil =>
    simp only [List.nil_append]
    unfold buildAux
    rw [if_pos hst]
  | cons p rest ih =>
    simp only [List.cons_append]
    unfold buildAux
    rw [if_neg (by simp [hpre p (by simp)])]
    rw [if_neg (by simp [hpre p (by simp)])]
    exact ih (fun q hq => hpre q (by simp [hq]))

/-- C7 amended: classification never raises; if the style catalog cannot be
read at all the returned map is empty; and if inspecting an individual style
raises, the loop stops at that style: entries already built are kept and
the remaining styles of the catalog are not classified (only the rule 10
outline-level lookup error is skipped per style). -/
theorem C7_amended_error_semantics (cat : StyleCatalog)
    (pre post : List DocStyle) (st : DocStyle) (key : List Char) :
    (cat.readable = false → build_style_heading_map cat key = none) ∧
    (st.raises = true → (∀ p ∈ pre, p.raises = false) →
      build_style_heading_map ⟨true, pre ++ st :: post⟩ key =
        build_style_heading_map ⟨true, pre⟩ key) := by
  constructor
  · intro h
    unfold build_style_heading_map
    rw [if_neg (by simp [h])]
    rfl
  · intro hst hpre
    unfold build_style_heading_map
    rw [if_pos rfl, if_pos rfl]
    exact congrFun (buildAux_stops hst hpre) key

/-- Witness for the C7 amended statement at concrete catalogs. -/
theorem C7_amended_error_semantics_witness :
    build_style_heading_map ⟨false, [styleHeadingOne]⟩
        ("Heading 1".toList) = none ∧
    build_style_heading_map ⟨true, [styleHeadingOne, styleThatRaises]⟩
        ("Heading 1".toList) =
      build_style_heading_map ⟨true, [styleHeadingOne]⟩
        ("Heading 1".toList) := by
  constructor
  · exact (C7_amended_error_semantics ⟨false, [styleHeadingOne]⟩ [] []
      styleThatRaises ("Heading 1".toList)).1 rfl
  · exact (C7_amended_error_semantics ⟨true, []⟩ [styleHeadingOne] []
      styleThatRaises ("Heading 1".toList)).2 (by decide) (by decide)

/-! The exclusion map of the filter provider (claim C8). -/

/-- DocxFilterProvider.build_exclusion_map (filter_provider.py lines 59-75):
styles flagged excluded are collected into the set stored under the
hard-coded heading level 1; the mapping is empty when nothing is flagged. -/
def build_exclusion_map (exclusions : List (List Char × Bool)) :
    List (Nat × List (List Char)) :=
  if (exclusions.foldl
      (fun acc p => if p.2 then acc ++ [p.1] else acc) []).isEmpty then []
  else [(1, exclusions.foldl
      (fun acc p => if p.2 then acc ++ [p.1] else acc) [])]

theorem exclusion_foldl_mem (exclusions : List (List Char × Bool))
    (acc : List (List Char)) (s : List Char) :
    (s ∈ exclusions.foldl
        (fun acc p => if p.2 then acc ++ [p.1] else acc) acc) ↔
      (s ∈ acc ∨ (s, true) ∈ exclusions) := by
  induction exclusions generalizing acc with
  | nil => simp
  | cons p rest ih =>
    obtain ⟨p1, p2⟩ := p
    cases p2
    · simp only [List.foldl_cons]
      rw [ih, if_neg (show ¬((p1, false) : List Char × Bool).2 = true by simp)]
      simp
    · simp only [List.foldl_cons]
      rw [ih, if_pos trivial]
      simp only [List.mem_append, List.mem_singleton, List.mem_cons,
        Prod.mk.injEq]
      tauto

/-- C8: the exclusion map built by build_exclusion_map has level 1 as its
only key, the key is present exactly when at least one style is flagged,
and the set stored at it is exactly the set of styles flagged true; a style
flagged false never appears at any level. -/
theorem C8_exclusion_map_level_one (excl : List (List Char × Bool)) :
    (∀ l ss, (l, ss) ∈ build_exclusion_map excl →
      l = 1 ∧ ∀ s, s ∈ ss ↔ (s, true) ∈ excl) ∧
    (build_exclusion_map excl = [] ↔ ∀ p ∈ excl, p.2 = false) := by
  unfold build_exclusion_map
  by_cases he : (excl.foldl
      (fun acc p => if p.2 then acc ++ [p.1] else acc) []).isEmpty = true
  · rw [if_pos he]
    rw [List.isEmpty_iff] at he
    constructor
    · intro l ss h
      cases h
    · constructor
      · intro _ p hp
        by_contra hpf
        have hp2 : p.2 = true := by
          revert hpf
          cases p.2 <;> simp
        have hmem : p.1 ∈ excl.foldl
            (fun acc p => if p.2 then acc ++ [p.1] else acc) [] := by
          refine (exclusion_foldl_mem excl [] p.1).mpr (Or.inr ?_)
          have : p = (p.1, true) := by
            rw [← hp2]
          rw [← this]
          exact hp
        rw [he] at hmem
        cases hmem
      · intro _
        rfl
  · rw [if_neg he]
    constructor
    · intro l ss h
      simp only [List.mem_singleton, Prod.mk.injEq] at h
      obtain ⟨hl, hss⟩ := h
      subst hl
      subst hss
      refine ⟨rfl, fun s => ?_⟩
      rw [exclusion_foldl_mem]
      simp
    · constructor
      · intro h
        simp at h
      · intro hall
        exfalso
        apply he
        rw [List.isEmpty_iff]
        by_contra hne
        obtain ⟨s, hs⟩ := List.exists_mem_of_ne_nil _ hne
        rcases (exclusion_foldl_mem excl [] s).mp hs with h0 | h1
        · cases h0
        · have := hall _ h1
          simp at this

/-- Witness for C8 at a concrete exclusion mapping with one flagged and one
unflagged style. -/
theorem C8_exclusion_map_level_one_witness :
    ("Note".toList ∈ ["Note".toList]) ↔
      (("Note".toList, true) ∈
        [("Note".toList, true), ("Body".toList, false)]) :=
  (((C8_exclusion_map_level_one
      [("Note".toList, true), ("Body".toList, false)]).1
    1 ["Note".toList] (by decide)).2 ("Note".toList))

/-! The override merge of convert_docx_to_dita_internal (claim C3). -/

/-- One entry of the legacy STYLE_MAP fill (docx_conversion_logic.py lines
107-111): a legacy entry is added only when its key is absent. -/
def legacyStep (acc : List Char → Option Nat) (kv : List Char × Nat) :
    List Char → Option Nat :=
  if acc kv.1 = none then (fun k => if k = kv.1 then some kv.2 else acc k)
  else acc

/-- Legacy STYLE_MAP fill: packaged mappings fill missing keys only. -/
def apply_legacy_fill (m : List Char → Option Nat)
    (legacy : List (List Char × Nat)) : List Char → Option Nat :=
  legacy.foldl legacyStep m

/-- One entry of the user override merge (docx_conversion_logic.py lines
113-125): an unconditional dict assignment. -/
def overrideStep (acc : List Char → Option Nat) (kv : List Char × Nat) :
    List Char → Option Nat :=
  fun k => if k = kv.1 then some kv.2 else acc k

/-- User override merge: every entry of the caller-supplied
style_heading_map of the run metadata is written over the current map. -/
def apply_user_overrides (m : List Char → Option Nat)
    (ov : List (List Char × Nat)) : List Char → Option Nat :=
  ov.foldl overrideStep m

/-- The final style-to-level map of convert_docx_to_dita_internal:
intelligent classification, then the legacy fill for missing keys, then the
caller-supplied overrides on top. -/
def final_style_heading_map (cat : StyleCatalog)
    (legacy overrides : List (List Char × Nat)) : List Char → Option Nat :=
  apply_user_overrides
    (apply_legacy_fill (build_style_heading_map cat) legacy) overrides

theorem apply_user_overrides_not_mem {m : List Char → Option Nat}
    {ov : List (List Char × Nat)} {k : List Char}
    (h : k ∉ ov.map Prod.fst) : apply_user_overrides m ov k = m k := by
  induction ov generalizing m with
  | nil => rfl
  | cons kv rest ih =>
    simp only [List.map_cons, List.mem_cons] at h
    push_neg at h
    unfold apply_user_overrides
    rw [List.foldl_cons]
    have hrec : apply_user_overrides (overrideStep m kv) rest k =
        overrideStep m kv k := ih h.2
    unfold apply_user_overrides at hrec
    rw [hrec]
    unfold overrideStep
    rw [if_neg h.1]

theorem apply_user_overrides_mem {m : List Char → Option Nat}
    {ov : List (List Char × Nat)} {k : List Char} {v : Nat}
    (hnd : (ov.map Prod.fst).Nodup) (hmem : (k, v) ∈ ov) :
    apply_user_overrides m ov k = some v := by
  induction ov generalizing m with
  | nil => cases hmem
  | cons kv rest ih =>
    simp only [List.map_cons, List.nodup_cons] at hnd
    unfold apply_user_overrides
    rw [List.foldl_cons]
    rcases List.mem_cons.mp hmem with heq | hmemr
    · have hk1 : kv.1 = k := by rw [← heq]
      have hknot : k ∉ rest.map Prod.fst := hk1 ▸ hnd.1
      have hstop : apply_user_overrides (overrideStep m kv) rest k =
          overrideStep m kv k := apply_user_overrides_not_mem hknot
      unfold apply_user_overrides at hstop
      rw [hstop]
      unfold overrideStep
      rw [if_pos hk1.symm, ← heq]
    · exact ih hnd.2 hmemr

/-- C3: every key of the caller-supplied style_heading_map override ends up
in the final style-to-level map at exactly the caller-specified level,
whatever the classification rules (and the legacy fill) decided for that
style, including styles the rules excluded as body text. -/
theorem C3_user_override_wins (cat : StyleCatalog)
    (legacy overrides : List (List Char × Nat)) (k : List Char) (v : Nat)
    (hnd : (overrides.map Prod.fst).Nodup)
    (hmem : (k, v) ∈ overrides) :
    final_style_heading_map cat legacy overrides k = some v :=
  apply_user_overrides_mem hnd hmem

/-- Witness for C3: the style Body Text is excluded by classification
(rule 3) yet the override maps it to level 4 in the final map. -/
theorem C3_user_override_wins_witness :
    final_style_heading_map
      ⟨true, [⟨"Body Text".toList, true, none, false, false⟩]⟩ []
      [("Body Text".toList, 4)] ("Body Text".toList) = some 4 :=
  C3_user_override_wins _ _ _ _ 4 (by decide) (by decide)

/-! The single-topic fallback of the conversion (claim C2). -/

/-- The document as seen by the fallback path.  Modelled from the spec:
iter_block_items of the document reader yields the BlockItems in document
order; their internal structure is irrelevant here, so they are opaque
tokens. -/
structure SimpleDoc where
  blocks : List Nat
deriving DecidableEq

/-- A generated topic.  Modelled from the spec: create_dita_concept builds
a concept with the given title and revision date, and _add_content_to_topic
renders the supplied block items into its body in order. -/
structure Topic where
  title : List Char
  revDate : List Char
  body : List Nat
deriving DecidableEq

/-- A navigation entry (topicref plus its topicmeta) of the ditamap with
the attributes written by the fallback path. -/
structure NavEntry where
  href : List Char
  locktitle : List Char
  dataLevel : List Char
  navtitle : List Char
  createdDate : List Char
  revisedDate : List Char
  tocIndex : List Char
  foldout : List Char
  tdm : List Char
deriving DecidableEq

/-- os.path.basename for POSIX paths: the part after the last slash. -/
def basename (p : List Char) : List Char :=
  (p.reverse.takeWhile (fun c => c ≠ '/')).reverse

/-- The root part of os.path.splitext on a basename: everything before the
last dot, except that a basename whose characters before the last dot are
all dots (such as a leading-dot file) is not split. -/
def splitextRoot (b : List Char) : List Char :=
  if (b.reverse.takeWhile (fun c => c ≠ '.')).length = b.length then b
  else if (b.reverse.drop
      ((b.reverse.takeWhile (fun c => c ≠ '.')).length + 1)).all
      (fun c => c == '.') then b
  else (b.reverse.drop
      ((b.reverse.takeWhile (fun c => c ≠ '.')).length + 1)).reverse

/-- The fallback title (docx_conversion_logic.py line 177): the basename of
the source file without its extension, or Document when that is empty (the
or of the source handles the falsy empty string). -/
def fallbackTitle (file_path : List Char) : List Char :=
  if (splitextRoot (basename file_path)).isEmpty then "Document".toList
  else splitextRoot (basename file_path)

/-- The conversion state the fallback step reads and writes: the generated
topics (file name to topic) and the topicref entries of the map root. -/
structure ConvState where
  topics : List (List Char × Topic)
  navs : List NavEntry
deriving DecidableEq

/-- The revision date written into the topicref critdates (line 206): the
metadata revision_date if present and non-empty (a falsy or), else the
current date. -/
def revDateFallback (revMeta : Option (List Char)) (nowDate : List Char) :
    List Char :=
  match revMeta with
  | some d => if d.isEmpty then nowDate else d
  | none => nowDate

/-- The revision date given to create_dita_concept (line 186): the metadata
revision_date if the key is present (a dict get default), else the current
date. -/
def revDateConcept (revMeta : Option (List Char)) (nowDate : List Char) :
    List Char :=
  match revMeta with
  | some d => d
  | none => nowDate

/-- The single-topic fallback of convert_docx_to_dita_internal
(docx_conversion_logic.py lines 176-213): if no topics were generated,
synthesize one topic file named from a fresh uuid hex, titled from the file
name, render every block item of the document into it, and append one
topicref at data-level 1 with tocIndex 1 and foldout and tdm false.  The
uuid hex string and the current date are parameters of the model. -/
def convert_fallback (file_path : List Char) (doc : SimpleDoc)
    (revMeta : Option (List Char)) (nowDate uuidHex : List Char)
    (state : ConvState) : ConvState :=
  if state.topics.isEmpty then
    { topics := state.topics ++
        [("topic_".toList ++ uuidHex ++ ".dita".toList,
          ⟨fallbackTitle file_path, revDateConcept revMeta nowDate,
            doc.blocks⟩)],
      navs := state.navs ++
        [{ href := "topics/topic_".toList ++ uuidHex ++ ".dita".toList,
           locktitle := "yes".toList,
           dataLevel := "1".toList,
           navtitle := fallbackTitle file_path,
           createdDate := revDateFallback revMeta nowDate,
           revisedDate := revDateFallback revMeta nowDate,
           tocIndex := "1".toList,
           foldout := "false".toList,
           tdm := "false".toList }] }
  else state

/-- C2: when zero topics exist after generation (and so zero navigation
entries, by the one-to-one topic/navigation correspondence of the
generator), the fallback synthesizes exactly one topic titled from the
source file name without its extension, renders all block items of the
document into it, and emits exactly one navigation entry at data-level 1
whose foldout and tdm flags are both false. -/
theorem C2_zero_topics_fallback (file_path : List Char) (doc : SimpleDoc)
    (revMeta : Option (List Char)) (nowDate uuidHex : List Char)
    (state : ConvState)
    (htop : state.topics = []) (hnav : state.navs = [])
    (hroot : splitextRoot (basename file_path) ≠ []) :
    (convert_fallback file_path doc revMeta nowDate uuidHex state).topics.map
        (fun p => p.2.title) = [splitextRoot (basename file_path)] ∧
    (convert_fallback file_path doc revMeta nowDate uuidHex state).topics.map
        (fun p => p.2.body) = [doc.blocks] ∧
    (convert_fallback file_path doc revMeta nowDate uuidHex state).navs.map
        NavEntry.dataLevel = ["1".toList] ∧
    (convert_fallback file_path doc revMeta nowDate uuidHex state).navs.map
        NavEntry.navtitle = [splitextRoot (basename file_path)] ∧
    (convert_fallback file_path doc revMeta nowDate uuidHex state).navs.map
        NavEntry.foldout = ["false".toList] ∧
    (convert_fallback file_path doc revMeta nowDate uuidHex state).navs.map
        NavEntry.tdm = ["false".toList] := by
  have htitle : fallbackTitle file_path = splitextRoot (basename file_path) := by
    unfold fallbackTitle
    rw [if_neg (by simp [List.isEmpty_iff, hroot])]
  unfold convert_fallback
  rw [if_pos (by simp [htop])]
  rw [htop, hnav, htitle]
  simp

/-- Witness for C2 at a concrete path and document. -/
theorem C2_zero_topics_fallback_witness :
    (convert_fallback ("dir/report.docx".toList) ⟨[10, 20]⟩ none
        ("2024-01-01".toList) ("abc123".toList) ⟨[], []⟩).topics.map
        (fun p => p.2.title) =
      [splitextRoot (basename ("dir/report.docx".toList))] ∧
    (convert_fallback ("dir/report.docx".toList) ⟨[10, 20]⟩ none
        ("2024-01-01".toList) ("abc123".toList) ⟨[], []⟩).topics.map
        (fun p => p.2.body) = [[10, 20]] ∧
    (convert_fallback ("dir/report.docx".toList) ⟨[10, 20]⟩ none
        ("2024-01-01".toList) ("abc123".toList) ⟨[], []⟩).navs.map
        NavEntry.dataLevel = ["1".toList] ∧
    (convert_fallback ("dir/report.docx".toList) ⟨[10, 20]⟩ none
        ("2024-01-01".toList) ("abc123".toList) ⟨[], []⟩).navs.map
        NavEntry.navtitle =
      [splitextRoot (basename ("dir/report.docx".toList))] ∧
    (convert_fallback ("dir/report.docx".toList) ⟨[10, 20]⟩ none
        ("2024-01-01".toList) ("abc123".toList) ⟨[], []⟩).navs.map
        NavEntry.foldout = ["false".toList] ∧
    (convert_fallback ("dir/report.docx".toList) ⟨[10, 20]⟩ none
        ("2024-01-01".toList) ("abc123".toList) ⟨[], []⟩).navs.map
        NavEntry.tdm = ["false".toList] :=
  C2_zero_topics_fallback ("dir/report.docx".toList) ⟨[10, 20]⟩ none
    ("2024-01-01".toList) ("abc123".toList) ⟨[], []⟩ rfl rfl (by decide)

example : splitextRoot (basename ("dir/report.docx".toList)) =
    "report".toList := by decide
example : splitextRoot (basename (".bashrc".toList)) = ".bashrc".toList := by
  decide
example : splitextRoot (basename ("archive.tar.gz".toList)) =
    "archive.tar".toList := by decide
example : splitextRoot (basename ("..a".toList)) = "..a".toList := by decide
example : splitextRoot (basename ("a..b".toList)) = "a.".toList := by decide
example : splitextRoot (basename ("x.".toList)) = "x".toList := by decide
example : splitextRoot (basename ("dir/".toList)) = [] := by decide
example : fallbackTitle ("dir/".toList) = "Document".toList := by decide
